import Mathlib

/-!
# Verification of the Excel two-way reconciliation engine

This file gives a shallow embedding of the reconciliation core of
`src/main.py` (an interactive two-way merge of spreadsheet snapshots)
and proves properties of it.

The embedding choices:

* Cells are `String`s (the decode step of the program stringifies every
  cell), rows are `List String`, a sheet is a header row plus data rows,
  and a dataset is an association list from sheet name to sheet (a model
  of the JSON object / Python dict, whose keys are unique).
* The interactive decision protocol (`get_user_choice`) is modelled by a
  finite script of operator input lines, consumed left to right.  The
  validation loop of `get_user_choice` discards invalid entries until a
  valid one is found; an exhausted script (EOF) is `none`.  Every
  interactive function additionally returns the remaining script and a
  trace of the option sets it prompted with, so that the number and kind
  of protocol invocations is observable.
* Python truthiness of a row (`None` and `[]` are falsy) is modelled
  explicitly on `Option Row`.
* `str.strip()` is modelled by `strip`, which removes leading and
  trailing ASCII whitespace from the character list of the string.
-/

namespace ExcelMerge

/-- A row of a sheet: a list of cell values (empty string = no value). -/
abbrev Row := List String

/-- A sheet: ordered headers plus ordered data rows (model of the JSON
objects `{"headers": [...], "rows": [...]}` built by
`excel_to_json_streaming`). -/
structure Sheet where
  headers : List String
  rows : List Row
deriving DecidableEq, Repr

/-- A dataset: association list from sheet name to sheet (model of the
JSON top-level object; dict keys are unique in the program). -/
abbrev Dataset := List (String × Sheet)

/-- ASCII whitespace recognised by Python's `str.strip()`. -/
def isSpaceChar (c : Char) : Bool :=
  c = ' ' || c = '\t' || c = '\n' || c = '\r' || c = '\x0b' || c = '\x0c'

/-- Model of Python `str.strip()`: drop leading and trailing whitespace. -/
def strip (s : String) : String :=
  String.mk (((s.data.dropWhile isSpaceChar).reverse.dropWhile isSpaceChar).reverse)

/-- Truthiness of `str(cell).strip()`: the cell has content after trimming. -/
def cellNonBlank (c : String) : Bool :=
  !(strip c).isEmpty

/-- The row filter used at lines 243 and 270 of `main.py`:
`r and any(str(cell).strip() for cell in r)` — the row is a non-empty
list and some cell is non-blank after trimming. -/
def keepRow (r : Row) : Bool :=
  !r.isEmpty && r.any cellNonBlank

/-- A row is blank when every cell is empty after trimming (the empty
row is blank).  This is the spec's notion of "blank row". -/
def blankRow (r : Row) : Bool :=
  r.all fun c => (strip c).isEmpty

/-- Python truthiness of an optional row: `None` and `[]` are falsy. -/
def optFalsy : Option Row → Bool
  | none => true
  | some r => r.isEmpty

/-- Line 243 of `main.py`: `lrow and any(str(cell).strip() for cell in lrow)`. -/
def optKeep : Option Row → Bool
  | none => false
  | some r => keepRow r

/-- Model of `get_user_choice` (main.py lines 134–140) over a finite input script:
discard entries until one is in `valid` (the re-prompt loop); an
exhausted script is EOF (`none`). -/
def get_user_choice (valid : List String) : List String → Option (String × List String)
  | [] => none
  | c :: rest => if c ∈ valid then some (c, rest) else get_user_choice valid rest

/-- The option set of a field-level prompt (main.py line 200):
`"1"` = keep local, `"2"` = keep remote. -/
def fieldChoices : List String := ["1", "2"]

/-- The option set of a row-level prompt (main.py line 251):
`"1"` keep local, `"2"` keep remote, `"3"`/`"4"` merge, `"s"` skip. -/
def rowChoices : List String := ["1", "2", "3", "4", "s"]

/-- One iteration of the field loop of `merge_rows_enhanced`
(main.py lines 184–201), for already-fetched cell values `lv`, `rv`:
returns the merged cell, the remaining script, and the trace of prompts
it issued. -/
def mergeField (lv rv : String) (cs : List String) :
    Option (String × List String × List (List String)) :=
  let lc := strip lv
  let rc := strip rv
  if lc = rc then some (lc, cs, [])
  else if !lc.isEmpty && rc.isEmpty then some (lc, cs, [])
  else if !rc.isEmpty && lc.isEmpty then some (rc, cs, [])
  else
    match get_user_choice fieldChoices cs with
    | none => none
    | some (c, cs') => some ((if c = "1" then lc else rc), cs', [fieldChoices])

/-- The field loop `for i in range(max_len)` of `merge_rows_enhanced`
(main.py lines 179–201), processing positions `i, i+1, ..., i+k-1`:
cell values are fetched with an empty-string default
(`lrow[i] if i < len(lrow) else ""`). -/
def mergeFieldsFrom (lrow rrow : List String) :
    Nat → Nat → List String → Option (List String × List String × List (List String))
  | _, 0, cs => some ([], cs, [])
  | i, k + 1, cs =>
    match mergeField (lrow.getD i "") (rrow.getD i "") cs with
    | none => none
    | some (v, cs1, t1) =>
      match mergeFieldsFrom lrow rrow (i + 1) k cs1 with
      | none => none
      | some (vs, cs2, t2) => some (v :: vs, cs2, t1 ++ t2)

/-- Model of `merge_rows_enhanced` (main.py lines 165–203).  The inner `Option Row`
is the Python return value (`none` = Python `None`); `headers` only
affects the displayed prompt text, not the result. -/
def merge_rows_enhanced (headers : List String) (lrow rrow : Option Row)
    (cs : List String) :
    Option (Option Row × List String × List (List String)) :=
  if optFalsy lrow && optFalsy rrow then some (none, cs, [])
  else if optFalsy lrow then some (some (rrow.getD []), cs, [])
  else if optFalsy rrow then some (some (lrow.getD []), cs, [])
  else
    let l := lrow.getD []
    let r := rrow.getD []
    match mergeFieldsFrom l r 0 (max l.length r.length) cs with
    | none => none
    | some (vs, cs', tr) => some (some vs, cs', tr)

/-- Python truthiness of the result of `merge_rows_enhanced`
(`if merged:` at lines 260 and 264): `None` and `[]` are falsy. -/
def mergedTruthy : Option Row → Bool
  | none => false
  | some r => !r.isEmpty

/-- The body of the sheet loop `for i in range(max_len)` of
`compare_json_enhanced` for one candidate pair (main.py lines 238–266):
returns the rows appended to `resolved_rows` for this index
(before the final blank filter), the conflict-count increment, the
remaining script, and the prompt trace. -/
def stepRow (headers : List String) (lrow rrow : Option Row) (cs : List String) :
    Option (List Row × Nat × List String × List (List String)) :=
  if lrow = rrow then
    some ((if optKeep lrow then [lrow.getD []] else []), 0, cs, [])
  else
    match get_user_choice rowChoices cs with
    | none => none
    | some (c, cs1) =>
      if c = "1" then
        some ((if optFalsy lrow then [] else [lrow.getD []]), 1, cs1, [rowChoices])
      else if c = "2" then
        some ((if optFalsy rrow then [] else [rrow.getD []]), 1, cs1, [rowChoices])
      else if c = "3" then
        match merge_rows_enhanced headers lrow rrow cs1 with
        | none => none
        | some (m, cs2, tm) =>
          some ((if mergedTruthy m then [m.getD []] else []), 1, cs2, rowChoices :: tm)
      else if c = "4" then
        match merge_rows_enhanced headers rrow lrow cs1 with
        | none => none
        | some (m, cs2, tm) =>
          some ((if mergedTruthy m then [m.getD []] else []), 1, cs2, rowChoices :: tm)
      else
        some ([], 1, cs1, [rowChoices])

/-- The sheet loop of `compare_json_enhanced` (main.py lines 238–266),
processing candidate-pair indices `i, i+1, ..., i+k-1` of the two row
lists; accumulates appended rows, conflict count, and prompt trace. -/
def processRowsFrom (headers : List String) (lrows rrows : List Row) :
    Nat → Nat → List String → Option (List Row × Nat × List String × List (List String))
  | _, 0, cs => some ([], 0, cs, [])
  | i, k + 1, cs =>
    match stepRow headers lrows[i]? rrows[i]? cs with
    | none => none
    | some (c1, n1, cs1, t1) =>
      match processRowsFrom headers lrows rrows (i + 1) k cs1 with
      | none => none
      | some (c2, n2, cs2, t2) => some (c1 ++ c2, n1 + n2, cs2, t1 ++ t2)

/-- Reconciliation of one sheet pair (main.py lines 224–271): headers are
the local headers if non-empty else the remote ones, the row loop runs
over `range(max(len(local_rows), len(remote_rows)))`, and the final rows
are filtered by the blank filter of line 270.  Returns the resolved
sheet, the per-sheet conflict count, the remaining script, and the
prompt trace. -/
def compareSheet (local_sheet remote_sheet : Sheet) (cs : List String) :
    Option (Sheet × Nat × List String × List (List String)) :=
  let headers :=
    if local_sheet.headers.isEmpty then remote_sheet.headers else local_sheet.headers
  let local_rows := local_sheet.rows
  let remote_rows := remote_sheet.rows
  let max_len := max local_rows.length remote_rows.length
  match processRowsFrom headers local_rows remote_rows 0 max_len cs with
  | none => none
  | some (rows, n, cs', tr) =>
    some (⟨headers, rows.filter keepRow⟩, n, cs', tr)

/-- Sheet lookup with default (main.py lines 227–228, the dict `get` with
an empty-sheet default): look a sheet up by name, defaulting to the
empty sheet. -/
def lookupSheet (d : Dataset) (name : String) : Sheet :=
  match d.find? (fun p => p.1 = name) with
  | some p => p.2
  | none => ⟨[], []⟩

/-- Model of `set(local_data.keys()).union(remote_data.keys())` (main.py line 222),
as a deterministic duplicate-free list of names. -/
def allSheets (l r : Dataset) : List String :=
  (l.map Prod.fst ++ r.map Prod.fst).dedup

/-- The sheet loop of `compare_json_enhanced` (main.py lines 224–276)
over a list of sheet names: resolves each name's sheet pair and
accumulates the resolved dataset, total conflict count, and trace. -/
def compareSheets : List String → Dataset → Dataset → List String →
    Option (Dataset × Nat × List String × List (List String))
  | [], _, _, cs => some ([], 0, cs, [])
  | name :: rest, l, r, cs =>
    match compareSheet (lookupSheet l name) (lookupSheet r name) cs with
    | none => none
    | some (sheet, n1, cs1, t1) =>
      match compareSheets rest l r cs1 with
      | none => none
      | some (ds, n2, cs2, t2) => some ((name, sheet) :: ds, n1 + n2, cs2, t1 ++ t2)

/-- Model of `compare_json_enhanced` (main.py lines 206–283), restricted to its
reconciliation core (file I/O stripped): resolve every sheet name in the
union of the two datasets' name sets. -/
def compare_json_enhanced (l r : Dataset) (cs : List String) :
    Option (Dataset × Nat × List String × List (List String)) :=
  compareSheets (allSheets l r) l r cs

/-- Explicit padding of a row to width `n` with empty-string cells (the
spec's description of the row merge; the code pads virtually via
`lrow[i] if i < len(lrow) else ""`). -/
def padRow (r : Row) (n : Nat) : Row :=
  r ++ List.replicate (n - r.length) ""

/-! ## Basic lemmas -/

lemma get_user_choice_mem {valid : List String} :
    ∀ {cs c cs'}, get_user_choice valid cs = some (c, cs') → c ∈ valid := by
  intro cs
  induction cs with
  | nil => intro c cs' h; simp [get_user_choice] at h
  | cons a rest ih =>
    intro c cs' h
    rw [get_user_choice] at h
    by_cases ha : a ∈ valid
    · rw [if_pos ha] at h
      obtain ⟨rfl, rfl⟩ := Prod.mk.injEq .. ▸ Option.some.injEq .. ▸ h
      exact ha
    · rw [if_neg ha] at h
      exact ih h

lemma keepRow_eq_not_blank (r : Row) : keepRow r = !(blankRow r) := by
  cases r with
  | nil => rfl
  | cons a t =>
    simp only [keepRow, blankRow, List.isEmpty_cons, Bool.not_false, Bool.true_and,
      List.any_cons, List.all_cons, Bool.not_and, cellNonBlank]
    cases h : (strip a).isEmpty <;>
      simp [List.any_eq_not_all_not, cellNonBlank]

lemma keepRow_of_blank {r : Row} (h : blankRow r = true) : keepRow r = false := by
  rw [keepRow_eq_not_blank, h, Bool.not_true]

lemma blankRow_strip {r : Row} (h : blankRow r = true) :
    ∀ c ∈ r, strip c = "" := by
  intro c hc
  have := (List.all_eq_true.mp h) c hc
  exact (String.isEmpty_iff _).mp this

lemma blankRow_getD {r : Row} (h : blankRow r = true) (i : Nat) :
    strip (r.getD i "") = "" := by
  by_cases hi : i < r.length
  · rw [List.getD_eq_getElem r "" hi]
    exact blankRow_strip h _ (List.getElem_mem hi)
  · rw [List.getD_eq_default r "" (Nat.le_of_not_lt hi)]
    rfl

/-! ## Structure of the field-merge loop -/

lemma mergeFieldsFrom_length {l r : List String} :
    ∀ {k i cs vs cs' tr}, mergeFieldsFrom l r i k cs = some (vs, cs', tr) →
      vs.length = k := by
  intro k
  induction k with
  | zero =>
    intro i cs vs cs' tr h
    simp only [mergeFieldsFrom, Option.some.injEq] at h
    obtain ⟨rfl, rfl, rfl⟩ := Prod.mk.injEq .. ▸ h
    rfl
  | succ k ih =>
    intro i cs vs cs' tr h
    rw [mergeFieldsFrom] at h
    cases h1 : mergeField (l.getD i "") (r.getD i "") cs with
    | none => rw [h1] at h; exact absurd h (by simp)
    | some x =>
      obtain ⟨v, cs1, t1⟩ := x
      rw [h1] at h
      simp only [] at h
      cases h2 : mergeFieldsFrom l r (i + 1) k cs1 with
      | none => rw [h2] at h; exact absurd h (by simp)
      | some y =>
        obtain ⟨ws, cs2, t2⟩ := y
        rw [h2] at h
        simp only [Option.some.injEq] at h
        obtain ⟨rfl, rfl, rfl⟩ := Prod.mk.injEq .. ▸ h
        simp [ih h2]

lemma mergeFieldsFrom_add (l r : List String) (a b : Nat) :
    ∀ (i : Nat) (cs : List String),
      mergeFieldsFrom l r i (a + b) cs =
        match mergeFieldsFrom l r i a cs with
        | none => none
        | some (vs, cs1, t1) =>
          match mergeFieldsFrom l r (i + a) b cs1 with
          | none => none
          | some (ws, cs2, t2) => some (vs ++ ws, cs2, t1 ++ t2) := by
  induction a with
  | zero =>
    intro i cs
    simp only [Nat.zero_add, Nat.add_zero, mergeFieldsFrom]
    cases h : mergeFieldsFrom l r i b cs with
    | none => rfl
    | some x => obtain ⟨ws, cs2, t2⟩ := x; simp
  | succ a ih =>
    intro i cs
    have hab : a + 1 + b = (a + b) + 1 := by omega
    rw [hab, mergeFieldsFrom, mergeFieldsFrom]
    cases h1 : mergeField (l.getD i "") (r.getD i "") cs with
    | none => rfl
    | some x =>
      obtain ⟨v, cs1, t1⟩ := x
      simp only
      rw [ih (i + 1) cs1]
      have hia : i + (a + 1) = i + 1 + a := by omega
      rw [hia]
      cases h2 : mergeFieldsFrom l r (i + 1) a cs1 with
      | none => rfl
      | some y =>
        obtain ⟨ws, cs2, t2⟩ := y
        simp only
        cases h3 : mergeFieldsFrom l r (i + 1 + a) b cs2 with
        | none => rfl
        | some z =>
          obtain ⟨us, cs3, t3⟩ := z
          simp

lemma mergeField_trace {lv rv : String} {cs : List String} {v : String}
    {cs' : List String} {tr : List (List String)}
    (h : mergeField lv rv cs = some (v, cs', tr)) :
    ∀ t ∈ tr, t = fieldChoices := by
  rw [mergeField] at h
  split at h
  · simp only [Option.some.injEq] at h
    obtain ⟨rfl, rfl, rfl⟩ := Prod.mk.injEq .. ▸ h
    simp
  · split at h
    · simp only [Option.some.injEq] at h
      obtain ⟨rfl, rfl, rfl⟩ := Prod.mk.injEq .. ▸ h
      simp
    · split at h
      · simp only [Option.some.injEq] at h
        obtain ⟨rfl, rfl, rfl⟩ := Prod.mk.injEq .. ▸ h
        simp
      · cases hg : get_user_choice fieldChoices cs with
        | none => rw [hg] at h; exact absurd h (by simp)
        | some x =>
          obtain ⟨c, cs1⟩ := x
          rw [hg] at h
          simp only [Option.some.injEq] at h
          obtain ⟨rfl, rfl, rfl⟩ := Prod.mk.injEq .. ▸ h
          simp

lemma mergeFieldsFrom_trace {l r : List String} :
    ∀ {k i cs vs cs' tr}, mergeFieldsFrom l r i k cs = some (vs, cs', tr) →
      ∀ t ∈ tr, t = fieldChoices := by
  intro k
  induction k with
  | zero =>
    intro i cs vs cs' tr h
    simp only [mergeFieldsFrom, Option.some.injEq] at h
    obtain ⟨rfl, rfl, rfl⟩ := Prod.mk.injEq .. ▸ h
    simp
  | succ k ih =>
    intro i cs vs cs' tr h
    rw [mergeFieldsFrom] at h
    cases h1 : mergeField (l.getD i "") (r.getD i "") cs with
    | none => rw [h1] at h; exact absurd h (by simp)
    | some x =>
      obtain ⟨v, cs1, t1⟩ := x
      rw [h1] at h
      simp only [] at h
      cases h2 : mergeFieldsFrom l r (i + 1) k cs1 with
      | none => rw [h2] at h; exact absurd h (by simp)
      | some y =>
        obtain ⟨ws, cs2, t2⟩ := y
        rw [h2] at h
        simp only [Option.some.injEq] at h
        obtain ⟨rfl, rfl, rfl⟩ := Prod.mk.injEq .. ▸ h
        intro t ht
        rcases List.mem_append.mp ht with h' | h'
        · exact mergeField_trace h1 t h'
        · exact ih h2 t h'

lemma merge_rows_enhanced_trace {headers : List String} {lrow rrow : Option Row}
    {cs : List String} {m : Option Row} {cs' : List String} {tr : List (List String)}
    (h : merge_rows_enhanced headers lrow rrow cs = some (m, cs', tr)) :
    ∀ t ∈ tr, t = fieldChoices := by
  rw [merge_rows_enhanced] at h
  split at h
  · simp only [Option.some.injEq] at h
    obtain ⟨rfl, rfl, rfl⟩ := Prod.mk.injEq .. ▸ h
    simp
  · split at h
    · simp only [Option.some.injEq] at h
      obtain ⟨rfl, rfl, rfl⟩ := Prod.mk.injEq .. ▸ h
      simp
    · split at h
      · simp only [Option.some.injEq] at h
        obtain ⟨rfl, rfl, rfl⟩ := Prod.mk.injEq .. ▸ h
        simp
      · simp only [] at h
        cases h1 : mergeFieldsFrom (lrow.getD []) (rrow.getD []) 0
            (max (lrow.getD []).length (rrow.getD []).length) cs with
        | none => rw [h1] at h; exact absurd h (by simp)
        | some x =>
          obtain ⟨vs, cs1, t1⟩ := x
          rw [h1] at h
          simp only [Option.some.injEq] at h
          obtain ⟨rfl, rfl, rfl⟩ := Prod.mk.injEq .. ▸ h
          exact mergeFieldsFrom_trace h1

/-! ## Structure of the sheet row loop -/

lemma processRowsFrom_add (headers : List String) (lrows rrows : List Row) (a b : Nat) :
    ∀ (i : Nat) (cs : List String),
      processRowsFrom headers lrows rrows i (a + b) cs =
        match processRowsFrom headers lrows rrows i a cs with
        | none => none
        | some (c1, n1, cs1, t1) =>
          match processRowsFrom headers lrows rrows (i + a) b cs1 with
          | none => none
          | some (c2, n2, cs2, t2) => some (c1 ++ c2, n1 + n2, cs2, t1 ++ t2) := by
  induction a with
  | zero =>
    intro i cs
    simp only [Nat.zero_add, Nat.add_zero, processRowsFrom]
    cases h : processRowsFrom headers lrows rrows i b cs with
    | none => rfl
    | some x => obtain ⟨c2, n2, cs2, t2⟩ := x; simp
  | succ a ih =>
    intro i cs
    have hab : a + 1 + b = (a + b) + 1 := by omega
    rw [hab, processRowsFrom, processRowsFrom]
    cases h1 : stepRow headers lrows[i]? rrows[i]? cs with
    | none => rfl
    | some x =>
      obtain ⟨c1, n1, cs1, t1⟩ := x
      simp only
      rw [ih (i + 1) cs1]
      have hia : i + (a + 1) = i + 1 + a := by omega
      rw [hia]
      cases h2 : processRowsFrom headers lrows rrows (i + 1) a cs1 with
      | none => rfl
      | some y =>
        obtain ⟨c2, n2, cs2, t2⟩ := y
        simp only
        cases h3 : processRowsFrom headers lrows rrows (i + 1 + a) b cs2 with
        | none => rfl
        | some z =>
          obtain ⟨c3, n3, cs3, t3⟩ := z
          simp [List.append_assoc, Nat.add_assoc]

lemma fieldChoices_ne_rowChoices : fieldChoices ≠ rowChoices := by decide

lemma stepRow_count {headers : List String} {lrow rrow : Option Row}
    {cs : List String} {c1 : List Row} {n1 : Nat} {cs1 : List String}
    {t1 : List (List String)}
    (h : stepRow headers lrow rrow cs = some (c1, n1, cs1, t1)) :
    n1 = t1.count rowChoices := by
  rw [stepRow] at h
  split at h
  · simp only [Option.some.injEq] at h
    obtain ⟨rfl, rfl, rfl, rfl⟩ := Prod.mk.injEq .. ▸ h
    rfl
  · cases hg : get_user_choice rowChoices cs with
    | none => rw [hg] at h; exact absurd h (by simp)
    | some x =>
      obtain ⟨c, csg⟩ := x
      rw [hg] at h
      simp only [] at h
      split at h
      · simp only [Option.some.injEq] at h
        obtain ⟨rfl, rfl, rfl, rfl⟩ := Prod.mk.injEq .. ▸ h
        decide
      · split at h
        · simp only [Option.some.injEq] at h
          obtain ⟨rfl, rfl, rfl, rfl⟩ := Prod.mk.injEq .. ▸ h
          decide
        · split at h
          · cases hm : merge_rows_enhanced headers lrow rrow csg with
            | none => rw [hm] at h; exact absurd h (by simp)
            | some y =>
              obtain ⟨m, cs2, tm⟩ := y
              rw [hm] at h
              simp only [Option.some.injEq] at h
              obtain ⟨rfl, rfl, rfl, rfl⟩ := Prod.mk.injEq .. ▸ h
              have hz : tm.count rowChoices = 0 := by
                rw [List.count_eq_zero]
                intro hmem
                exact fieldChoices_ne_rowChoices
                  ((merge_rows_enhanced_trace hm _ hmem) ▸ rfl)
              rw [List.count_cons_self, hz]
          · split at h
            · cases hm : merge_rows_enhanced headers rrow lrow csg with
              | none => rw [hm] at h; exact absurd h (by simp)
              | some y =>
                obtain ⟨m, cs2, tm⟩ := y
                rw [hm] at h
                simp only [Option.some.injEq] at h
                obtain ⟨rfl, rfl, rfl, rfl⟩ := Prod.mk.injEq .. ▸ h
                have hz : tm.count rowChoices = 0 := by
                  rw [List.count_eq_zero]
                  intro hmem
                  exact fieldChoices_ne_rowChoices
                    ((merge_rows_enhanced_trace hm _ hmem) ▸ rfl)
                rw [List.count_cons_self, hz]
            · simp only [Option.some.injEq] at h
              obtain ⟨rfl, rfl, rfl, rfl⟩ := Prod.mk.injEq .. ▸ h
              decide

lemma processRowsFrom_count {headers : List String} {lrows rrows : List Row} :
    ∀ {k i cs rows n cs' tr},
      processRowsFrom headers lrows rrows i k cs = some (rows, n, cs', tr) →
      n = tr.count rowChoices := by
  intro k
  induction k with
  | zero =>
    intro i cs rows n cs' tr h
    simp only [processRowsFrom, Option.some.injEq] at h
    obtain ⟨rfl, rfl, rfl, rfl⟩ := Prod.mk.injEq .. ▸ h
    rfl
  | succ k ih =>
    intro i cs rows n cs' tr h
    rw [processRowsFrom] at h
    cases h1 : stepRow headers lrows[i]? rrows[i]? cs with
    | none => rw [h1] at h; exact absurd h (by simp)
    | some x =>
      obtain ⟨c1, n1, cs1, t1⟩ := x
      rw [h1] at h
      simp only [] at h
      cases h2 : processRowsFrom headers lrows rrows (i + 1) k cs1 with
      | none => rw [h2] at h; exact absurd h (by simp)
      | some y =>
        obtain ⟨c2, n2, cs2, t2⟩ := y
        rw [h2] at h
        simp only [Option.some.injEq] at h
        obtain ⟨rfl, rfl, rfl, rfl⟩ := Prod.mk.injEq .. ▸ h
        rw [List.count_append, stepRow_count h1, ih h2]

lemma compareSheet_rows_keep {ls rs : Sheet} {cs : List String}
    {out : Sheet} {n : Nat} {cs' : List String} {tr : List (List String)}
    (h : compareSheet ls rs cs = some (out, n, cs', tr)) :
    ∀ row ∈ out.rows, keepRow row = true := by
  rw [compareSheet] at h
  cases hp : processRowsFrom
      (if ls.headers.isEmpty then rs.headers else ls.headers)
      ls.rows rs.rows 0 (max ls.rows.length rs.rows.length) cs with
  | none => rw [hp] at h; exact absurd h (by simp)
  | some x =>
    obtain ⟨rows, n0, cs0, tr0⟩ := x
    rw [hp] at h
    simp only [Option.some.injEq] at h
    obtain ⟨rfl, rfl, rfl, rfl⟩ := Prod.mk.injEq .. ▸ h
    intro row hrow
    exact (List.mem_filter.mp hrow).2

lemma compareSheet_conflicts {ls rs : Sheet} {cs : List String}
    {out : Sheet} {n : Nat} {cs' : List String} {tr : List (List String)}
    (h : compareSheet ls rs cs = some (out, n, cs', tr)) :
    n = tr.count rowChoices := by
  rw [compareSheet] at h
  cases hp : processRowsFrom
      (if ls.headers.isEmpty then rs.headers else ls.headers)
      ls.rows rs.rows 0 (max ls.rows.length rs.rows.length) cs with
  | none => rw [hp] at h; exact absurd h (by simp)
  | some x =>
    obtain ⟨rows, n0, cs0, tr0⟩ := x
    rw [hp] at h
    simp only [Option.some.injEq] at h
    obtain ⟨rfl, rfl, rfl, rfl⟩ := Prod.mk.injEq .. ▸ h
    exact processRowsFrom_count hp

/-- C5: for every pair of sheets, the per-sheet conflict count reported by
sheet reconciliation equals the number of row-level interactive decision
protocol invocations (prompts whose option set is the five row options)
made while reconciling that sheet. -/
theorem conflict_count_eq_row_decisions (ls rs : Sheet) (cs : List String)
    (out : Sheet) (n : Nat) (cs' : List String) (tr : List (List String))
    (h : compareSheet ls rs cs = some (out, n, cs', tr)) :
    n = tr.count rowChoices :=
  compareSheet_conflicts h

/-- Witness for C5 on a sheet with two diverging rows, resolved by keeping
local then remote: the reported count 2 equals the two row-level prompts. -/
theorem conflict_count_eq_row_decisions_witness :
    (2 : Nat) = List.count rowChoices [rowChoices, rowChoices] :=
  conflict_count_eq_row_decisions
    ⟨["H"], [["a"], ["b"]]⟩ ⟨["H"], [["x"], ["y"]]⟩ ["1", "2"]
    ⟨["H"], [["a"], ["y"]]⟩ 2 [] [rowChoices, rowChoices] (by decide)

lemma compareSheets_keep {names : List String} {l r : Dataset} :
    ∀ {cs ds n cs' tr}, compareSheets names l r cs = some (ds, n, cs', tr) →
      ∀ p ∈ ds, ∀ row ∈ p.2.rows, keepRow row = true := by
  induction names with
  | nil =>
    intro cs ds n cs' tr h
    simp only [compareSheets, Option.some.injEq] at h
    obtain ⟨rfl, rfl, rfl, rfl⟩ := Prod.mk.injEq .. ▸ h
    intro p hp
    exact absurd hp (by simp)
  | cons name rest ih =>
    intro cs ds n cs' tr h
    rw [compareSheets] at h
    cases h1 : compareSheet (lookupSheet l name) (lookupSheet r name) cs with
    | none => rw [h1] at h; exact absurd h (by simp)
    | some x =>
      obtain ⟨sheet, n1, cs1, t1⟩ := x
      rw [h1] at h
      simp only [] at h
      cases h2 : compareSheets rest l r cs1 with
      | none => rw [h2] at h; exact absurd h (by simp)
      | some y =>
        obtain ⟨ds2, n2, cs2, t2⟩ := y
        rw [h2] at h
        simp only [Option.some.injEq] at h
        obtain ⟨rfl, rfl, rfl, rfl⟩ := Prod.mk.injEq .. ▸ h
        intro p hp
        rcases List.mem_cons.mp hp with h' | h'
        · subst h'
          exact compareSheet_rows_keep h1
        · exact ih h2 p h'

/-- C6: for every pair of input datasets and every operator input script,
no row of any sheet of the resolved dataset is blank (every cell empty
after trimming), whatever path produced the row. -/
theorem no_blank_row_in_resolved (l r : Dataset) (cs : List String)
    (ds : Dataset) (n : Nat) (cs' : List String) (tr : List (List String))
    (h : compare_json_enhanced l r cs = some (ds, n, cs', tr)) :
    ∀ p ∈ ds, ∀ row ∈ p.2.rows, blankRow row = false := by
  intro p hp row hrow
  have hk : keepRow row = true := compareSheets_keep h p hp row hrow
  rw [keepRow_eq_not_blank] at hk
  cases hb : blankRow row with
  | false => rfl
  | true => rw [hb] at hk; exact absurd hk (by decide)

/-- Witness for C6: a run whose resolved dataset keeps the non-blank row
`["a"]`; that row is indeed not blank. -/
theorem no_blank_row_in_resolved_witness :
    blankRow ["a"] = false :=
  no_blank_row_in_resolved
    [("S", ⟨["H"], [["a"], [" "]]⟩)] [("S", ⟨["H"], [["a"], [" "]]⟩)] []
    [("S", ⟨["H"], [["a"]]⟩)] 0 [] [] (by decide)
    ("S", ⟨["H"], [["a"]]⟩) (by decide) ["a"] (by decide)

lemma compareSheets_keys {names : List String} {l r : Dataset} :
    ∀ {cs ds n cs' tr}, compareSheets names l r cs = some (ds, n, cs', tr) →
      ds.map Prod.fst = names := by
  induction names with
  | nil =>
    intro cs ds n cs' tr h
    simp only [compareSheets, Option.some.injEq] at h
    obtain ⟨rfl, rfl, rfl, rfl⟩ := Prod.mk.injEq .. ▸ h
    rfl
  | cons name rest ih =>
    intro cs ds n cs' tr h
    rw [compareSheets] at h
    cases h1 : compareSheet (lookupSheet l name) (lookupSheet r name) cs with
    | none => rw [h1] at h; exact absurd h (by simp)
    | some x =>
      obtain ⟨sheet, n1, cs1, t1⟩ := x
      rw [h1] at h
      simp only [] at h
      cases h2 : compareSheets rest l r cs1 with
      | none => rw [h2] at h; exact absurd h (by simp)
      | some y =>
        obtain ⟨ds2, n2, cs2, t2⟩ := y
        rw [h2] at h
        simp only [Option.some.injEq] at h
        obtain ⟨rfl, rfl, rfl, rfl⟩ := Prod.mk.injEq .. ▸ h
        simp [ih h2]

lemma lookupSheet_not_mem {d : Dataset} {nm : String}
    (hnm : nm ∉ d.map Prod.fst) : lookupSheet d nm = ⟨[], []⟩ := by
  rw [lookupSheet]
  have hfind : d.find? (fun p => p.1 = nm) = none := by
    rw [List.find?_eq_none]
    intro x hx
    simp only [decide_eq_true_eq]
    intro hx1
    exact hnm (hx1 ▸ List.mem_map_of_mem Prod.fst hx)
  rw [hfind]

/-- C7: the resolved dataset has exactly one entry per sheet name in the
union of the local and remote sheet-name sets (its name list is the
union, duplicate-free, so membership matches the union even when one
side has zero sheets), and a name missing on one side is looked up as
the default empty sheet. -/
theorem resolved_sheet_names (l r : Dataset) (cs : List String)
    (ds : Dataset) (n : Nat) (cs' : List String) (tr : List (List String))
    (h : compare_json_enhanced l r cs = some (ds, n, cs', tr)) :
    ds.map Prod.fst = allSheets l r
    ∧ (∀ nm, nm ∈ ds.map Prod.fst ↔ nm ∈ l.map Prod.fst ∨ nm ∈ r.map Prod.fst)
    ∧ (ds.map Prod.fst).Nodup
    ∧ (∀ (d : Dataset) nm, nm ∉ d.map Prod.fst → lookupSheet d nm = ⟨[], []⟩) := by
  have hkeys : ds.map Prod.fst = allSheets l r := compareSheets_keys h
  refine ⟨hkeys, ?_, ?_, fun d nm hnm => lookupSheet_not_mem hnm⟩
  · intro nm
    rw [hkeys]
    simp [allSheets, List.mem_dedup]
  · rw [hkeys]
    exact List.nodup_dedup _

/-- Witness for C7 with a remote side that has zero sheets: the resolved
name list is exactly the union of the two name sets. -/
theorem resolved_sheet_names_witness :
    ([("A", (⟨["H"], [["x", "1"]]⟩ : Sheet))].map Prod.fst =
      allSheets [("A", ⟨["H"], [["x", "1"]]⟩)] []) :=
  (resolved_sheet_names [("A", ⟨["H"], [["x", "1"]]⟩)] [] ["1"]
    [("A", ⟨["H"], [["x", "1"]]⟩)] 1 [] [rowChoices] (by decide)).1

/-! ## Reconciling a dataset against itself -/

lemma stepRow_self (headers : List String) (o : Option Row) (cs : List String) :
    stepRow headers o o cs =
      some ((if optKeep o then [o.getD []] else []), 0, cs, []) := by
  rw [stepRow, if_pos rfl]

lemma processRowsFrom_self (headers : List String) (rows : List Row) :
    ∀ (k i : Nat) (cs : List String), i + k = rows.length →
      processRowsFrom headers rows rows i k cs =
        some ((rows.drop i).filter keepRow, 0, cs, []) := by
  intro k
  induction k with
  | zero =>
    intro i cs hik
    have hd : rows.drop i = [] := List.drop_eq_nil_of_le (by omega)
    rw [processRowsFrom, hd]
    rfl
  | succ k ih =>
    intro i cs hik
    have hi : i < rows.length := by omega
    rw [processRowsFrom, stepRow_self]
    simp only []
    rw [ih (i + 1) cs (by omega)]
    simp only []
    have hget : rows[i]? = some rows[i] := List.getElem?_eq_getElem hi
    rw [hget]
    have hdrop : rows.drop i = rows[i] :: rows.drop (i + 1) :=
      List.drop_eq_getElem_cons hi
    rw [hdrop, List.filter_cons]
    have hok : optKeep (some rows[i]) = keepRow rows[i] := rfl
    rw [hok]
    cases hkr : keepRow rows[i] <;> simp

lemma compareSheet_self (s : Sheet) (cs : List String) :
    compareSheet s s cs =
      some (⟨s.headers, s.rows.filter keepRow⟩, 0, cs, []) := by
  rw [compareSheet]
  have hh : (if s.headers.isEmpty then s.headers else s.headers) = s.headers := by
    split <;> rfl
  rw [hh, max_self, processRowsFrom_self s.headers s.rows s.rows.length 0 cs (by omega)]
  simp only [List.drop_zero]
  have : (s.rows.filter keepRow).filter keepRow = s.rows.filter keepRow :=
    List.filter_eq_self.mpr fun a ha => (List.mem_filter.mp ha).2
  rw [this]

lemma compareSheets_self (d : Dataset) : ∀ (names : List String) (cs : List String),
    compareSheets names d d cs =
      some (names.map (fun nm =>
        (nm, ⟨(lookupSheet d nm).headers, (lookupSheet d nm).rows.filter keepRow⟩)),
        0, cs, []) := by
  intro names
  induction names with
  | nil => intro cs; rfl
  | cons name rest ih =>
    intro cs
    rw [compareSheets, compareSheet_self]
    simp only []
    rw [ih cs]
    simp

lemma union_eq_of_sub : ∀ (l₁ l₂ : List String), l₁ ⊆ l₂ → l₁ ∪ l₂ = l₂
  | [], _, _ => rfl
  | a :: t, l₂, h => by
    rw [List.cons_union, union_eq_of_sub t l₂ (fun x hx => h (List.mem_cons_of_mem a hx)),
      List.insert_of_mem (h (List.mem_cons_self a t))]

lemma allSheets_self (d : Dataset) (hd : (d.map Prod.fst).Nodup) :
    allSheets d d = d.map Prod.fst := by
  rw [allSheets, List.dedup_append, List.dedup_eq_self.mpr hd]
  exact union_eq_of_sub _ _ fun a ha => ha

lemma map_lookup_filter : ∀ (d : Dataset), (d.map Prod.fst).Nodup →
    (d.map Prod.fst).map (fun nm =>
      (nm, (⟨(lookupSheet d nm).headers, (lookupSheet d nm).rows.filter keepRow⟩ : Sheet))) =
      d.map (fun p => (p.1, ⟨p.2.headers, p.2.rows.filter keepRow⟩)) := by
  intro d
  induction d with
  | nil => intro _; rfl
  | cons p rest ih =>
    intro hd
    have hnd := List.nodup_cons.mp hd
    simp only [List.map_cons]
    have hself : lookupSheet (p :: rest) p.1 = p.2 := by
      rw [lookupSheet, List.find?_cons_of_pos _ (by simp)]
    rw [hself]
    have hcong : ∀ nm ∈ rest.map Prod.fst,
        (nm, (⟨(lookupSheet (p :: rest) nm).headers,
          (lookupSheet (p :: rest) nm).rows.filter keepRow⟩ : Sheet)) =
        (nm, (⟨(lookupSheet rest nm).headers,
          (lookupSheet rest nm).rows.filter keepRow⟩ : Sheet)) := by
      intro nm hnm
      have hne : p.1 ≠ nm := fun he => hnd.1 (he ▸ hnm)
      have hlk : lookupSheet (p :: rest) nm = lookupSheet rest nm := by
        rw [lookupSheet, lookupSheet, List.find?_cons_of_neg _ (by simp [hne])]
      rw [hlk]
    rw [List.map_congr_left hcong, ih hnd.2]

/-- C2: reconciling a dataset against an identical copy of itself yields
zero conflicts, consumes no operator input and issues no decision-protocol
prompt (empty trace), and resolves to the input dataset with every blank
row removed from every sheet. -/
theorem idempotent_on_identical (d : Dataset) (cs : List String)
    (hd : (d.map Prod.fst).Nodup) :
    compare_json_enhanced d d cs =
      some (d.map (fun p =>
        (p.1, ⟨p.2.headers, p.2.rows.filter (fun row => !(blankRow row))⟩)),
        0, cs, []) := by
  rw [compare_json_enhanced, allSheets_self d hd, compareSheets_self d]
  rw [map_lookup_filter d hd]
  have : keepRow = fun row => !(blankRow row) := funext keepRow_eq_not_blank
  rw [this]

/-- Witness for C2: a concrete dataset with one blank and one non-blank
row, reconciled against itself. -/
theorem idempotent_on_identical_witness :
    compare_json_enhanced
        [("S", ⟨["H"], [["a"], [" "]]⟩)] [("S", ⟨["H"], [["a"], [" "]]⟩)] ["x"] =
      some ([("S", ⟨["H"], [["a"]]⟩)], 0, ["x"], []) := by
  rw [idempotent_on_identical [("S", ⟨["H"], [["a"], [" "]]⟩)] ["x"] (by decide)]
  decide

/-! ## Row-level conflicts with an absent or blank side -/

/-- C9: at a row-level conflict where the local row is absent, the
keep-local choice appends nothing for that index — the same outcome as
the explicit skip choice; symmetrically, keep-remote with the remote row
absent also drops the row. -/
theorem absent_side_choice_drops_row (headers : List String) (rrow lrow : Row)
    (cs1 cs1' cs2 cs2' cs3 cs3' : List String)
    (h1 : get_user_choice rowChoices cs1 = some ("1", cs1'))
    (h2 : get_user_choice rowChoices cs2 = some ("s", cs2'))
    (h3 : get_user_choice rowChoices cs3 = some ("2", cs3')) :
    stepRow headers none (some rrow) cs1 = some ([], 1, cs1', [rowChoices])
    ∧ stepRow headers none (some rrow) cs2 = some ([], 1, cs2', [rowChoices])
    ∧ stepRow headers (some lrow) none cs3 = some ([], 1, cs3', [rowChoices]) := by
  refine ⟨?_, ?_, ?_⟩
  · rw [stepRow, if_neg (by simp), h1]
    simp [optFalsy]
  · rw [stepRow, if_neg (by simp), h2]
    simp
  · rw [stepRow, if_neg (by simp), h3]
    simp [optFalsy]

/-- Witness for C9: concrete one-line scripts choosing keep-local, skip,
and keep-remote at a one-sided candidate pair. -/
theorem absent_side_choice_drops_row_witness :
    stepRow [] none (some ["x"]) ["1"] = some ([], 1, [], [rowChoices])
    ∧ stepRow [] none (some ["x"]) ["s"] = some ([], 1, [], [rowChoices])
    ∧ stepRow [] (some ["y"]) none ["2"] = some ([], 1, [], [rowChoices]) :=
  absent_side_choice_drops_row [] ["x"] ["y"] ["1"] [] ["s"] [] ["2"] []
    (by decide) (by decide) (by decide)

lemma mergeField_blank {lv rv : String} (hl : strip lv = "") (hr : strip rv = "")
    (cs : List String) : mergeField lv rv cs = some ("", cs, []) := by
  rw [mergeField]
  simp only [hl, hr]
  rfl

lemma mergeFieldsFrom_blank {l r : List String}
    (hl : blankRow l = true) (hr : blankRow r = true) :
    ∀ (k i : Nat) (cs : List String),
      mergeFieldsFrom l r i k cs = some (List.replicate k "", cs, []) := by
  intro k
  induction k with
  | zero => intro i cs; rfl
  | succ k ih =>
    intro i cs
    rw [mergeFieldsFrom, mergeField_blank (blankRow_getD hl i) (blankRow_getD hr i)]
    simp only []
    rw [ih (i + 1) cs]
    simp [List.replicate_succ]

lemma keepRow_replicate_empty (k : Nat) : keepRow (List.replicate k "") = false := by
  apply keepRow_of_blank
  rw [blankRow, List.all_eq_true]
  intro c hc
  rw [List.eq_of_mem_replicate hc]
  rfl

lemma merge_rows_enhanced_blank {headers : List String} {l r : Row}
    {cs : List String} {m : Option Row} {cs' : List String} {tm : List (List String)}
    (hl : blankRow l = true) (hr : blankRow r = true)
    (h : merge_rows_enhanced headers (some l) (some r) cs = some (m, cs', tm)) :
    ∀ row, m = some row → keepRow row = false := by
  rw [merge_rows_enhanced] at h
  split at h
  · simp only [Option.some.injEq] at h
    obtain ⟨rfl, rfl, rfl⟩ := Prod.mk.injEq .. ▸ h
    intro row hrow
    exact absurd hrow (by simp)
  · split at h
    · simp only [Option.some.injEq] at h
      obtain ⟨rfl, rfl, rfl⟩ := Prod.mk.injEq .. ▸ h
      intro row hrow
      obtain rfl : r = row := Option.some.inj hrow
      exact keepRow_of_blank hr
    · split at h
      · simp only [Option.some.injEq] at h
        obtain ⟨rfl, rfl, rfl⟩ := Prod.mk.injEq .. ▸ h
        intro row hrow
        obtain rfl : l = row := Option.some.inj hrow
        exact keepRow_of_blank hl
      · simp only [Option.getD_some] at h
        rw [mergeFieldsFrom_blank hl hr] at h
        simp only [Option.some.injEq] at h
        obtain ⟨rfl, rfl, rfl⟩ := Prod.mk.injEq .. ▸ h
        intro row hrow
        obtain rfl := Option.some.inj hrow
        exact keepRow_replicate_empty _

/-- C10: a candidate pair whose two rows are both blank but not cell-wise
equal is counted as a conflict and triggers a row-level decision prompt,
yet no operator choice can place a row in the resolved sheet: whatever
the script, the contribution for that index is removed by the blank-row
filter. -/
theorem blank_divergent_pair_is_barren_conflict (headers : List String)
    (l r : Row) (cs : List String) (contrib : List Row) (n : Nat)
    (cs2 : List String) (tr : List (List String))
    (hl : blankRow l = true) (hr : blankRow r = true) (hne : l ≠ r)
    (hstep : stepRow headers (some l) (some r) cs = some (contrib, n, cs2, tr)) :
    n = 1 ∧ tr.head? = some rowChoices ∧ contrib.filter keepRow = [] := by
  rw [stepRow, if_neg (fun he => hne (Option.some.inj he))] at hstep
  cases hg : get_user_choice rowChoices cs with
  | none => rw [hg] at hstep; exact absurd hstep (by simp)
  | some x =>
    obtain ⟨c, csg⟩ := x
    rw [hg] at hstep
    simp only [] at hstep
    split at hstep
    · simp only [Option.some.injEq] at hstep
      obtain ⟨rfl, rfl, rfl, rfl⟩ := Prod.mk.injEq .. ▸ hstep
      refine ⟨rfl, rfl, ?_⟩
      split
      · rfl
      · simp [keepRow_of_blank hl]
    · split at hstep
      · simp only [Option.some.injEq] at hstep
        obtain ⟨rfl, rfl, rfl, rfl⟩ := Prod.mk.injEq .. ▸ hstep
        refine ⟨rfl, rfl, ?_⟩
        split
        · rfl
        · simp [keepRow_of_blank hr]
      · split at hstep
        · cases hm : merge_rows_enhanced headers (some l) (some r) csg with
          | none => rw [hm] at hstep; exact absurd hstep (by simp)
          | some y =>
            obtain ⟨m, csm, tm⟩ := y
            rw [hm] at hstep
            simp only [Option.some.injEq] at hstep
            obtain ⟨rfl, rfl, rfl, rfl⟩ := Prod.mk.injEq .. ▸ hstep
            refine ⟨rfl, rfl, ?_⟩
            cases m with
            | none => rfl
            | some row =>
              have hk := merge_rows_enhanced_blank hl hr hm row rfl
              split
              · simp [hk]
              · rfl
        · split at hstep
          · cases hm : merge_rows_enhanced headers (some r) (some l) csg with
            | none => rw [hm] at hstep; exact absurd hstep (by simp)
            | some y =>
              obtain ⟨m, csm, tm⟩ := y
              rw [hm] at hstep
              simp only [Option.some.injEq] at hstep
              obtain ⟨rfl, rfl, rfl, rfl⟩ := Prod.mk.injEq .. ▸ hstep
              refine ⟨rfl, rfl, ?_⟩
              cases m with
              | none => rfl
              | some row =>
                have hk := merge_rows_enhanced_blank hr hl hm row rfl
                split
                · simp [hk]
                · rfl
          · simp only [Option.some.injEq] at hstep
            obtain ⟨rfl, rfl, rfl, rfl⟩ := Prod.mk.injEq .. ▸ hstep
            exact ⟨rfl, rfl, rfl⟩

/-- Witness for C10: the pair `[" "]` versus `[""]` with the operator
choosing the local-first merge. -/
theorem blank_divergent_pair_is_barren_conflict_witness :
    (1 : Nat) = 1 ∧ [rowChoices].head? = some rowChoices
    ∧ ([[""]] : List Row).filter keepRow = [] :=
  blank_divergent_pair_is_barren_conflict [] [" "] [""] ["3"] [[""]] 1 [] [rowChoices]
    (by decide) (by decide) (by decide) (by decide)

/-! ## Field-level reconciliation (per-position behaviour) -/

lemma mergeField_equal {lv rv : String} (heq : strip lv = strip rv)
    (cs : List String) : mergeField lv rv cs = some (strip lv, cs, []) := by
  rw [mergeField]
  rw [if_pos heq]

lemma mergeField_left {lv rv : String} (hlv : strip lv ≠ "") (hrv : strip rv = "")
    (cs : List String) : mergeField lv rv cs = some (strip lv, cs, []) := by
  rw [mergeField]
  have he : (strip lv).isEmpty = false := by
    cases h : (strip lv).isEmpty
    · rfl
    · exact absurd ((String.isEmpty_iff _).mp h) hlv
  rw [if_neg (by rw [hrv]; exact hlv), if_pos (by simp [String.isEmpty_iff, hrv, he])]

lemma mergeField_right {lv rv : String} (hrv : strip rv ≠ "") (hlv : strip lv = "")
    (cs : List String) : mergeField lv rv cs = some (strip rv, cs, []) := by
  rw [mergeField]
  have he : (strip rv).isEmpty = false := by
    cases h : (strip rv).isEmpty
    · rfl
    · exact absurd ((String.isEmpty_iff _).mp h) hrv
  rw [if_neg (by rw [hlv]; exact fun hx => hrv hx.symm),
    if_neg (by simp [String.isEmpty_iff, hlv]),
    if_pos (by simp [String.isEmpty_iff, hlv, he])]

lemma mergeField_conflict {lv rv : String} {cs cs' : List String} {c : String}
    (hlv : strip lv ≠ "") (hrv : strip rv ≠ "") (hne : strip lv ≠ strip rv)
    (hch : get_user_choice fieldChoices cs = some (c, cs')) :
    mergeField lv rv cs =
      some ((if c = "1" then strip lv else strip rv), cs', [fieldChoices]) := by
  rw [mergeField]
  rw [if_neg hne, if_neg (by simp [String.isEmpty_iff, hrv]),
    if_neg (by simp [String.isEmpty_iff, hlv]), hch]

/-- Reaching field position `i` inside a both-present row merge: the run
factors through one `mergeField` call at position `i`, and the merged
row's cell `i` is that call's value. -/
lemma merge_run_at_position {headers lrow rrow : List String} {i : Nat}
    {cs cs_i : List String} {vs0 : List String} {t0 : List (List String)}
    {m : List String} {csF : List String} {tr : List (List String)}
    (hl : lrow ≠ []) (hr : rrow ≠ [])
    (hi : i < max lrow.length rrow.length)
    (hpre : mergeFieldsFrom lrow rrow 0 i cs = some (vs0, cs_i, t0))
    (hrun : merge_rows_enhanced headers (some lrow) (some rrow) cs =
      some (some m, csF, tr)) :
    ∃ v cs1 t1, mergeField (lrow.getD i "") (rrow.getD i "") cs_i =
      some (v, cs1, t1) ∧ m[i]? = some v := by
  rw [merge_rows_enhanced] at hrun
  rw [if_neg (by simp [optFalsy, hl, hr]), if_neg (by simp [optFalsy, hl]),
    if_neg (by simp [optFalsy, hr])] at hrun
  simp only [Option.getD_some] at hrun
  set maxLen := max lrow.length rrow.length with hml
  have hsplit : maxLen = i + (1 + (maxLen - i - 1)) := by omega
  rw [hsplit, mergeFieldsFrom_add lrow rrow i (1 + (maxLen - i - 1)) 0 cs,
    hpre] at hrun
  simp only [Nat.zero_add] at hrun
  cases h2 : mergeFieldsFrom lrow rrow i (1 + (maxLen - i - 1)) cs_i with
  | none => rw [h2] at hrun; exact absurd hrun (by simp)
  | some y =>
    obtain ⟨ws, cs2, t2⟩ := y
    rw [h2] at hrun
    simp only [] at hrun
    have h2' := h2
    rw [Nat.add_comm 1 (maxLen - i - 1), mergeFieldsFrom] at h2'
    cases h3 : mergeField (lrow.getD i "") (rrow.getD i "") cs_i with
    | none => rw [h3] at h2'; exact absurd h2' (by simp)
    | some z =>
      obtain ⟨v, cs1, t1⟩ := z
      rw [h3] at h2'
      simp only [] at h2'
      cases h4 : mergeFieldsFrom lrow rrow (i + 1) (maxLen - i - 1) cs1 with
      | none => rw [h4] at h2'; exact absurd h2' (by simp)
      | some w =>
        obtain ⟨us, cs3, t3⟩ := w
        rw [h4] at h2'
        simp only [Option.some.injEq] at h2'
        obtain ⟨rfl, rfl, rfl⟩ := Prod.mk.injEq .. ▸ h2'
        refine ⟨v, cs1, t1, rfl, ?_⟩
        simp only [Option.some.injEq] at hrun
        obtain ⟨hm, hcs, ht⟩ := Prod.mk.injEq .. ▸ hrun
        obtain rfl := (Option.some.inj hm).symm
        have hlen : vs0.length = i := mergeFieldsFrom_length hpre
        rw [List.getElem?_append_right (by omega)]
        simp [hlen]

/-- C3: at any field position of a both-present row merge where, after
trimming, exactly one side is non-empty, the merged cell is the trimmed
non-empty value and the field-level protocol is not invoked for that
position (the per-position step issues no prompt and consumes no input);
when both trimmed values are equal the merged cell is that common value,
also without a prompt. -/
theorem nonempty_side_wins_no_prompt (headers lrow rrow : List String) (i : Nat)
    (cs cs_i : List String) (vs0 : List String) (t0 : List (List String))
    (m : List String) (csF : List String) (tr : List (List String))
    (hl : lrow ≠ []) (hr : rrow ≠ [])
    (hi : i < max lrow.length rrow.length)
    (hpre : mergeFieldsFrom lrow rrow 0 i cs = some (vs0, cs_i, t0))
    (hrun : merge_rows_enhanced headers (some lrow) (some rrow) cs =
      some (some m, csF, tr)) :
    (strip (lrow.getD i "") ≠ "" → strip (rrow.getD i "") = "" →
      mergeField (lrow.getD i "") (rrow.getD i "") cs_i =
        some (strip (lrow.getD i ""), cs_i, [])
      ∧ m[i]? = some (strip (lrow.getD i "")))
    ∧ (strip (rrow.getD i "") ≠ "" → strip (lrow.getD i "") = "" →
      mergeField (lrow.getD i "") (rrow.getD i "") cs_i =
        some (strip (rrow.getD i ""), cs_i, [])
      ∧ m[i]? = some (strip (rrow.getD i "")))
    ∧ (strip (lrow.getD i "") = strip (rrow.getD i "") →
      mergeField (lrow.getD i "") (rrow.getD i "") cs_i =
        some (strip (lrow.getD i ""), cs_i, [])
      ∧ m[i]? = some (strip (lrow.getD i ""))) := by
  obtain ⟨v, cs1, t1, hmf, hgot⟩ := merge_run_at_position hl hr hi hpre hrun
  refine ⟨?_, ?_, ?_⟩
  · intro hlv hrv
    have heq := mergeField_left hlv hrv cs_i
    rw [hmf] at heq
    obtain ⟨rfl, rfl, rfl⟩ := Prod.mk.injEq .. ▸ Option.some.inj heq
    exact ⟨hmf, hgot⟩
  · intro hrv hlv
    have heq := mergeField_right hrv hlv cs_i
    rw [hmf] at heq
    obtain ⟨rfl, rfl, rfl⟩ := Prod.mk.injEq .. ▸ Option.some.inj heq
    exact ⟨hmf, hgot⟩
  · intro he
    have heq := mergeField_equal he cs_i
    rw [hmf] at heq
    obtain ⟨rfl, rfl, rfl⟩ := Prod.mk.injEq .. ▸ Option.some.inj heq
    exact ⟨hmf, hgot⟩

/-- Witness for C3 at position 1 of `["a", ""]` against `["a", "b"]`:
the non-empty remote value `"b"` wins with no prompt. -/
theorem nonempty_side_wins_no_prompt_witness :
    mergeField "" "b" [] = some ("b", [], []) ∧ (["a", "b"] : List String)[1]? = some "b" := by
  have h := (nonempty_side_wins_no_prompt [] ["a", ""] ["a", "b"] 1
    [] [] ["a"] [] ["a", "b"] [] []
    (by decide) (by decide) (by decide) (by decide) (by decide)).2.1
    (by decide) (by decide)
  simpa [show strip "b" = "b" from rfl] using h

/-- C4: at any field position of a both-present row merge where, after
trimming, both values are non-empty and differ, the field-level decision
protocol is invoked exactly once for that position, with exactly the two
options keep-local (`"1"`) and keep-remote (`"2"`), and the merged cell
is the trimmed local value under choice `"1"` and the trimmed remote
value under choice `"2"`. -/
theorem field_conflict_prompts_once (headers lrow rrow : List String) (i : Nat)
    (cs cs_i cs' : List String) (c : String)
    (vs0 : List String) (t0 : List (List String))
    (m : List String) (csF : List String) (tr : List (List String))
    (hl : lrow ≠ []) (hr : rrow ≠ [])
    (hi : i < max lrow.length rrow.length)
    (hpre : mergeFieldsFrom lrow rrow 0 i cs = some (vs0, cs_i, t0))
    (hrun : merge_rows_enhanced headers (some lrow) (some rrow) cs =
      some (some m, csF, tr))
    (hlv : strip (lrow.getD i "") ≠ "") (hrv : strip (rrow.getD i "") ≠ "")
    (hne : strip (lrow.getD i "") ≠ strip (rrow.getD i ""))
    (hch : get_user_choice fieldChoices cs_i = some (c, cs')) :
    mergeField (lrow.getD i "") (rrow.getD i "") cs_i =
      some ((if c = "1" then strip (lrow.getD i "") else strip (rrow.getD i "")),
        cs', [fieldChoices])
    ∧ m[i]? = some (if c = "1" then strip (lrow.getD i "")
        else strip (rrow.getD i ""))
    ∧ fieldChoices = ["1", "2"] := by
  obtain ⟨v, cs1, t1, hmf, hgot⟩ := merge_run_at_position hl hr hi hpre hrun
  have heq := mergeField_conflict hlv hrv hne hch
  rw [hmf] at heq
  obtain ⟨rfl, rfl, rfl⟩ := Prod.mk.injEq .. ▸ Option.some.inj heq
  exact ⟨hmf, hgot, rfl⟩

/-- Witness for C4: merging `["a"]` against `["b"]` with the operator
answering `"2"`: one field prompt with options `["1", "2"]`, remote
value kept. -/
theorem field_conflict_prompts_once_witness :
    mergeField "a" "b" ["2"] = some ("b", [], [fieldChoices])
    ∧ (["b"] : List String)[0]? = some "b"
    ∧ fieldChoices = ["1", "2"] := by
  have h := field_conflict_prompts_once [] ["a"] ["b"] 0
    ["2"] ["2"] [] "2" [] [] ["b"] [] [fieldChoices]
    (by decide) (by decide) (by decide) (by decide) (by decide)
    (by decide) (by decide) (by decide) (by decide)
  simpa [show strip "b" = "b" from rfl] using h

/-! ## Virtual padding of ragged rows -/

lemma getD_replicate_self : ∀ (k j : Nat),
    (List.replicate k ("" : String)).getD j "" = "" := by
  intro k
  induction k with
  | zero => intro j; rfl
  | succ k ih =>
    intro j
    cases j with
    | zero => rfl
    | succ j => exact ih j

lemma getD_padRow (r : Row) (n i : Nat) : (padRow r n).getD i "" = r.getD i "" := by
  rw [padRow]
  by_cases hi : i < r.length
  · exact List.getD_append _ _ _ _ hi
  · rw [List.getD_append_right _ _ _ _ (Nat.le_of_not_lt hi),
      List.getD_eq_default _ _ (Nat.le_of_not_lt hi), getD_replicate_self]

lemma length_padRow (r : Row) (n : Nat) (h : r.length ≤ n) :
    (padRow r n).length = n := by
  rw [padRow, List.length_append, List.length_replicate]
  omega

lemma mergeFieldsFrom_congr {l l' r r' : List String}
    (hl : ∀ i, l.getD i "" = l'.getD i "")
    (hr : ∀ i, r.getD i "" = r'.getD i "") :
    ∀ (k i : Nat) (cs : List String),
      mergeFieldsFrom l r i k cs = mergeFieldsFrom l' r' i k cs := by
  intro k
  induction k with
  | zero => intro i cs; rfl
  | succ k ih =>
    intro i cs
    rw [mergeFieldsFrom, mergeFieldsFrom, hl i, hr i]
    cases h1 : mergeField (l'.getD i "") (r'.getD i "") cs with
    | none => rfl
    | some x =>
      obtain ⟨v, cs1, t1⟩ := x
      simp only []
      rw [ih (i + 1) cs1]

/-- C8: when both rows are present, merging is insensitive to explicitly
padding either row with empty-string cells up to
`max(len(local), len(remote))` (the code pads virtually when fetching
each position); and in the concrete ragged scenario
`["a","b"]` versus `["a","c","d"]` the padded position compares `""`
against `"d"` without a prompt and the merged row is
`["a", <field decision on b/c>, "d"]` after exactly one field prompt. -/
theorem ragged_rows_padded :
    (∀ (headers l r : List String) (cs : List String), l ≠ [] → r ≠ [] →
      merge_rows_enhanced headers (some l) (some r) cs =
        merge_rows_enhanced headers (some (padRow l (max l.length r.length)))
          (some (padRow r (max l.length r.length))) cs)
    ∧ (∀ (headers : List String) (cs cs' : List String) (c : String),
      get_user_choice fieldChoices cs = some (c, cs') →
      merge_rows_enhanced headers (some ["a", "b"]) (some ["a", "c", "d"]) cs =
        some (some ["a", (if c = "1" then "b" else "c"), "d"], cs',
          [fieldChoices])) := by
  constructor
  · intro headers l r cs hl hr
    have hl1 : 1 ≤ l.length := List.length_pos.mpr hl
    have hr1 : 1 ≤ r.length := List.length_pos.mpr hr
    have hln : (padRow l (max l.length r.length)).length = max l.length r.length :=
      length_padRow _ _ (Nat.le_max_left _ _)
    have hrn : (padRow r (max l.length r.length)).length = max l.length r.length :=
      length_padRow _ _ (Nat.le_max_right _ _)
    have hlp : padRow l (max l.length r.length) ≠ [] := by
      intro he
      rw [he] at hln
      simp only [List.length_nil] at hln
      omega
    have hrp : padRow r (max l.length r.length) ≠ [] := by
      intro he
      rw [he] at hrn
      simp only [List.length_nil] at hrn
      omega
    rw [merge_rows_enhanced, merge_rows_enhanced,
      if_neg (by simp [optFalsy, hl, hr]), if_neg (by simp [optFalsy, hl]),
      if_neg (by simp [optFalsy, hr]),
      if_neg (by simp [optFalsy, hlp, hrp]), if_neg (by simp [optFalsy, hlp]),
      if_neg (by simp [optFalsy, hrp])]
    simp only [Option.getD_some]
    rw [hln, hrn, max_self,
      mergeFieldsFrom_congr (fun i => (getD_padRow l _ i).symm)
        (fun i => (getD_padRow r _ i).symm)]
  · intro headers cs cs' c hch
    have hf0 : mergeField "a" "a" cs = some ("a", cs, []) := mergeField_equal rfl cs
    have hf1 : mergeField "b" "c" cs =
        some ((if c = "1" then "b" else "c"), cs', [fieldChoices]) := by
      have h := @mergeField_conflict "b" "c" cs cs' c
        (by decide) (by decide) (by decide) hch
      simpa [show strip "b" = "b" from rfl, show strip "c" = "c" from rfl] using h
    have hf2 : mergeField "" "d" cs' = some ("d", cs', []) :=
      @mergeField_right "" "d" (by decide) rfl cs'
    rw [merge_rows_enhanced, if_neg (by decide), if_neg (by decide),
      if_neg (by decide)]
    simp only [Option.getD_some]
    rw [show max (List.length (["a", "b"] : List String))
        (List.length (["a", "c", "d"] : List String)) = 2 + 1 from rfl,
      mergeFieldsFrom,
      show List.getD (["a", "b"] : List String) 0 "" = "a" from rfl,
      show List.getD (["a", "c", "d"] : List String) 0 "" = "a" from rfl,
      hf0]
    simp only []
    rw [show (2 : Nat) = 1 + 1 from rfl, mergeFieldsFrom,
      show List.getD (["a", "b"] : List String) 1 "" = "b" from rfl,
      show List.getD (["a", "c", "d"] : List String) 1 "" = "c" from rfl,
      hf1]
    simp only []
    rw [show (1 : Nat) = 0 + 1 from rfl, mergeFieldsFrom,
      show List.getD (["a", "b"] : List String) 2 "" = "" from rfl,
      show List.getD (["a", "c", "d"] : List String) 2 "" = "d" from rfl,
      hf2]
    simp only []
    rw [mergeFieldsFrom]
    simp

/-- Witness for C8: the padding identity at `["a","b"]` / `["a","c","d"]`
and the concrete ragged scenario with the operator answering `"1"`. -/
theorem ragged_rows_padded_witness :
    merge_rows_enhanced [] (some ["a", "b"]) (some ["a", "c", "d"]) ["1"] =
      merge_rows_enhanced [] (some (padRow ["a", "b"] 3)) (some (padRow ["a", "c", "d"] 3)) ["1"]
    ∧ merge_rows_enhanced [] (some ["a", "b"]) (some ["a", "c", "d"]) ["1"] =
      some (some ["a", "b", "d"], [], [fieldChoices]) := by
  constructor
  · exact ragged_rows_padded.1 [] ["a", "b"] ["a", "c", "d"] ["1"]
      (by decide) (by decide)
  · have h := ragged_rows_padded.2 [] ["1"] [] "1" (by decide)
    simpa using h

/-! ## What survives a row-level conflict choice -/

/-- If a full sheet run reaches candidate index `i` (prefix run `hpre`),
the step at `i` contributes `contrib`, and the whole run succeeds, then
every contributed row that passes the blank filter is in the resolved
sheet. -/
lemma compareSheet_mem_of_step {ls rs : Sheet} {i : Nat}
    {cs cs_i : List String} {pre : List Row} {n0 : Nat} {t0 : List (List String)}
    {contrib : List Row} {n1 : Nat} {cs1 : List String} {t1 : List (List String)}
    {out : Sheet} {n : Nat} {csF : List String} {tr : List (List String)}
    (hi : i < max ls.rows.length rs.rows.length)
    (hpre : processRowsFrom (if ls.headers.isEmpty then rs.headers else ls.headers)
      ls.rows rs.rows 0 i cs = some (pre, n0, cs_i, t0))
    (hstep : stepRow (if ls.headers.isEmpty then rs.headers else ls.headers)
      ls.rows[i]? rs.rows[i]? cs_i = some (contrib, n1, cs1, t1))
    (hrun : compareSheet ls rs cs = some (out, n, csF, tr)) :
    ∀ row ∈ contrib, keepRow row = true → row ∈ out.rows := by
  rw [compareSheet] at hrun
  cases hp : processRowsFrom (if ls.headers.isEmpty then rs.headers else ls.headers)
      ls.rows rs.rows 0 (max ls.rows.length rs.rows.length) cs with
  | none => rw [hp] at hrun; exact absurd hrun (by simp)
  | some x =>
    obtain ⟨rows, nn, csf, trr⟩ := x
    rw [hp] at hrun
    simp only [Option.some.injEq] at hrun
    obtain ⟨rfl, rfl, rfl, rfl⟩ := Prod.mk.injEq .. ▸ hrun
    have hsplit : max ls.rows.length rs.rows.length =
        i + (1 + (max ls.rows.length rs.rows.length - i - 1)) := by omega
    rw [hsplit, processRowsFrom_add _ ls.rows rs.rows i _ 0 cs, hpre] at hp
    simp only [Nat.zero_add] at hp
    cases h2 : processRowsFrom (if ls.headers.isEmpty then rs.headers else ls.headers)
        ls.rows rs.rows i (1 + (max ls.rows.length rs.rows.length - i - 1)) cs_i with
    | none => rw [h2] at hp; exact absurd hp (by simp)
    | some y =>
      obtain ⟨c2rows, n2, cs2x, t2⟩ := y
      rw [h2] at hp
      simp only [Option.some.injEq] at hp
      obtain ⟨hrows, hnn, hcsf, htrr⟩ := Prod.mk.injEq .. ▸ hp
      rw [Nat.add_comm 1 _, processRowsFrom, hstep] at h2
      simp only [] at h2
      cases h3 : processRowsFrom (if ls.headers.isEmpty then rs.headers else ls.headers)
          ls.rows rs.rows (i + 1) (max ls.rows.length rs.rows.length - i - 1) cs1 with
      | none => rw [h3] at h2; exact absurd h2 (by simp)
      | some z =>
        obtain ⟨rest, n3, cs3, t3⟩ := z
        rw [h3] at h2
        simp only [Option.some.injEq] at h2
        obtain ⟨hc2, hn2, hcs2, ht2⟩ := Prod.mk.injEq .. ▸ h2
        intro row hrow hkeep
        have hmem : row ∈ rows := by
          rw [← hrows, ← hc2]
          exact List.mem_append.mpr (Or.inr (List.mem_append.mpr (Or.inl hrow)))
        exact List.mem_filter.mpr ⟨hmem, hkeep⟩

/-- Counterexample to the claim that at a conflicting candidate pair
every operator choice other than skip puts a row in the resolved sheet:
at index 0 the local side is absent and the remote row is `["x"]`
(a conflict), the operator answers `"1"` (keep local, not skip), yet the
resolved sheet has no rows at all. -/
theorem non_skip_choice_may_drop_row :
    (Sheet.rows ⟨["H"], []⟩)[0]? ≠ (Sheet.rows ⟨["H"], [["x"]]⟩)[0]?
    ∧ get_user_choice rowChoices ["1"] = some ("1", [])
    ∧ ("1" : String) ≠ "s"
    ∧ compareSheet ⟨["H"], []⟩ ⟨["H"], [["x"]]⟩ ["1"] =
        some (⟨["H"], []⟩, 1, [], [rowChoices]) := by
  refine ⟨by decide, by decide, by decide, by decide⟩

/-- C1 (amended): at a conflicting candidate pair, for every operator
choice other than skip the designated row does appear in the resolved
sheet, provided the designated side is present and the resulting row is
not blank: the local row for `"1"`, the remote row for `"2"`, and the
merge result for `"3"`/`"4"`.  (When the designated side is absent or
the resulting row is blank, the row is dropped exactly as under skip —
see the counterexample and C9/C10.) -/
theorem non_skip_choice_keeps_present_nonblank_row
    (ls rs : Sheet) (i : Nat) (cs cs_i cs' : List String) (c : String)
    (pre : List Row) (n0 : Nat) (t0 : List (List String))
    (out : Sheet) (n : Nat) (csF : List String) (tr : List (List String))
    (hi : i < max ls.rows.length rs.rows.length)
    (hpre : processRowsFrom (if ls.headers.isEmpty then rs.headers else ls.headers)
      ls.rows rs.rows 0 i cs = some (pre, n0, cs_i, t0))
    (hdiff : ls.rows[i]? ≠ rs.rows[i]?)
    (hch : get_user_choice rowChoices cs_i = some (c, cs'))
    (hrun : compareSheet ls rs cs = some (out, n, csF, tr)) :
    (c = "1" → ∀ row, ls.rows[i]? = some row → keepRow row = true →
      row ∈ out.rows)
    ∧ (c = "2" → ∀ row, rs.rows[i]? = some row → keepRow row = true →
      row ∈ out.rows)
    ∧ (c = "3" → ∀ m cs2 tm,
      merge_rows_enhanced (if ls.headers.isEmpty then rs.headers else ls.headers)
        ls.rows[i]? rs.rows[i]? cs' = some (some m, cs2, tm) →
      keepRow m = true → m ∈ out.rows)
    ∧ (c = "4" → ∀ m cs2 tm,
      merge_rows_enhanced (if ls.headers.isEmpty then rs.headers else ls.headers)
        rs.rows[i]? ls.rows[i]? cs' = some (some m, cs2, tm) →
      keepRow m = true → m ∈ out.rows) := by
  refine ⟨?_, ?_, ?_, ?_⟩
  · rintro rfl row hrow hkeep
    have hne : row.isEmpty = false := by
      rw [keepRow] at hkeep
      exact Bool.not_eq_true' .. ▸ (Bool.and_eq_true .. ▸ hkeep).1
    have hstep : stepRow (if ls.headers.isEmpty then rs.headers else ls.headers)
        ls.rows[i]? rs.rows[i]? cs_i = some ([row], 1, cs', [rowChoices]) := by
      rw [stepRow, if_neg hdiff, hch]
      simp only []
      rw [hrow]
      simp [optFalsy, hne]
    exact compareSheet_mem_of_step hi hpre hstep hrun row (by simp) hkeep
  · rintro rfl row hrow hkeep
    have hne : row.isEmpty = false := by
      rw [keepRow] at hkeep
      exact Bool.not_eq_true' .. ▸ (Bool.and_eq_true .. ▸ hkeep).1
    have hstep : stepRow (if ls.headers.isEmpty then rs.headers else ls.headers)
        ls.rows[i]? rs.rows[i]? cs_i = some ([row], 1, cs', [rowChoices]) := by
      rw [stepRow, if_neg hdiff, hch]
      simp only []
      rw [hrow]
      simp [optFalsy, hne]
    exact compareSheet_mem_of_step hi hpre hstep hrun row (by simp) hkeep
  · rintro rfl m cs2 tm hm hkeep
    have hne : m.isEmpty = false := by
      rw [keepRow] at hkeep
      exact Bool.not_eq_true' .. ▸ (Bool.and_eq_true .. ▸ hkeep).1
    have hstep : stepRow (if ls.headers.isEmpty then rs.headers else ls.headers)
        ls.rows[i]? rs.rows[i]? cs_i = some ([m], 1, cs2, rowChoices :: tm) := by
      rw [stepRow, if_neg hdiff, hch]
      simp only []
      rw [hm]
      simp [mergedTruthy, hne]
    exact compareSheet_mem_of_step hi hpre hstep hrun m (by simp) hkeep
  · rintro rfl m cs2 tm hm hkeep
    have hne : m.isEmpty = false := by
      rw [keepRow] at hkeep
      exact Bool.not_eq_true' .. ▸ (Bool.and_eq_true .. ▸ hkeep).1
    have hstep : stepRow (if ls.headers.isEmpty then rs.headers else ls.headers)
        ls.rows[i]? rs.rows[i]? cs_i = some ([m], 1, cs2, rowChoices :: tm) := by
      rw [stepRow, if_neg hdiff, hch]
      simp only []
      rw [hm]
      simp [mergedTruthy, hne]
    exact compareSheet_mem_of_step hi hpre hstep hrun m (by simp) hkeep

/-- Witness for the amended C1: a genuine two-sided conflict resolved by
keep-local; the kept local row is in the resolved sheet. -/
theorem non_skip_choice_keeps_present_nonblank_row_witness :
    (["x"] : Row) ∈ (Sheet.rows ⟨["H"], [["x"]]⟩) :=
  (non_skip_choice_keeps_present_nonblank_row
    ⟨["H"], [["x"]]⟩ ⟨["H"], [["y"]]⟩ 0 ["1"] ["1"] [] "1" [] 0 []
    ⟨["H"], [["x"]]⟩ 1 [] [rowChoices]
    (by decide) (by decide) (by decide) (by decide) (by decide)).1
    rfl ["x"] (by decide) (by decide)

end ExcelMerge
